import Mathlib

/-!
Verification of the request-synthesis core of `openapi-rust-cli`.

The definitions below are a shallow embedding of the repository's source:
`src/openapi.rs` (operation catalog), `src/http.rs` (request synthesis) and
`src/errors.rs` (error taxonomy), together with the older self-contained
variant in `src/main.rs` where a claim refers to it.  External library
functions that the source calls (`url::Url`, `percent_encoding`,
`serde_json`, `http::HeaderName` / `HeaderValue`) are modelled at the scope
the source exercises; each such model carries a doc comment stating its
scope.  Strings are modelled at the level of Unicode scalar values; the
ASCII fragment, which is all the claims exercise, coincides with Rust's
byte-level behaviour.
-/

namespace OpenapiCli

/-- Parameter wire locations, from `src/openapi.rs` `ParameterLocation`. -/
inductive ParameterLocation where
  | Query
  | Body
  | Path
  | Header
deriving DecidableEq

/-- A declared parameter, from `src/openapi.rs` `Parameter`. -/
structure Parameter where
  name : String
  location : ParameterLocation
  required : Bool
  param_type : String
deriving DecidableEq

/-- An operation, from `src/openapi.rs` `Endpoint`. -/
structure Endpoint where
  name : String
  method : String
  path : String
  params : List Parameter
deriving DecidableEq

/-- The error taxonomy, from `src/errors.rs` `Errors` (the variants reachable
from request synthesis).  `SerdeJsonError` is the transparent wrapper of a
`serde_json` parse failure (the spec's InvalidBody); `UrlParseError` the
transparent wrapper of `url::ParseError` (the spec's InvalidBaseAddress). -/
inductive Errors where
  | SerdeJsonError
  | InvalidHeaderName (name : String)
  | InvalidHeaderValue (name : String)
  | UrlParseError
  | MissingRequiredParameterError (name : String)
  | UnsupportedHttpMethodError (method : String)
deriving DecidableEq

/-- The four HTTP verbs the synthesizer can emit (`client.get` / `post` /
`put` / `delete` in `src/http.rs`). -/
inductive Method where
  | GET
  | POST
  | PUT
  | DELETE
deriving DecidableEq

/-- A parsed URL, modelling `url::Url` for absolute `scheme://host[/path]`
addresses.  A port, when present, is kept inside `host`; userinfo, query and
fragment components are outside this model's scope (no claim exercises
them).  `path` always begins with a slash and is stored percent-encoded, as
the url crate stores it. -/
structure Url where
  scheme : String
  host : String
  path : String
deriving DecidableEq

def Url.render (u : Url) : String :=
  u.scheme ++ "://" ++ u.host ++ u.path

/-- The left brace character, written by code point to keep it out of string
literals. -/
def lbrace : Char := Char.ofNat 0x7b

/-- The right brace character. -/
def rbrace : Char := Char.ofNat 0x7d

/-- The literal `\x7bname\x7d` token substituted during path interpolation
(`format!` in `src/http.rs` `handle_url_path`). -/
def braceToken (name : String) : String :=
  String.mk (lbrace :: (name.data ++ [rbrace]))

/-- Uppercase hexadecimal digit, as emitted by the url crate's
percent-encoding. -/
def hexDigitChar (n : Nat) : Char :=
  if n < 10 then Char.ofNat (48 + n) else Char.ofNat (55 + n)

/-- Characters the url crate percent-encodes when parsing or setting a path
(the WHATWG path percent-encode set): C0 controls, space, quote, angle
brackets, question mark, backtick, both braces, the hash sign, and DEL /
non-ASCII. -/
def needsPathEncoding (c : Char) : Bool :=
  decide (c.toNat < 0x20) || c = ' ' || c = '"' || c = '<' || c = '>' ||
  c = '?' || c = '`' || decide (c.toNat = 0x7b) || decide (c.toNat = 0x7d) ||
  c = '#' || decide (0x7f ≤ c.toNat)

def percentEncodeChar (c : Char) : List Char :=
  ['%', hexDigitChar (c.toNat / 16), hexDigitChar (c.toNat % 16)]

def encodePathChars : List Char → List Char
  | [] => []
  | c :: cs =>
    (if needsPathEncoding c then percentEncodeChar c else [c]) ++ encodePathChars cs

/-- Percent-encode a path the way the url crate does when it stores one.
Already-encoded `%XX` sequences are left alone (`%` is not in the encode
set), so the function is safe to apply to partially-encoded paths. -/
def encodePath (s : String) : String :=
  String.mk (encodePathChars s.data)

def hexVal? (c : Char) : Option Nat :=
  if 48 ≤ c.toNat ∧ c.toNat ≤ 57 then some (c.toNat - 48)
  else if 97 ≤ c.toNat ∧ c.toNat ≤ 102 then some (c.toNat - 87)
  else if 65 ≤ c.toNat ∧ c.toNat ≤ 70 then some (c.toNat - 55)
  else none

def percentDecodeChars : List Char → List Char
  | [] => []
  | '%' :: a :: b :: rest =>
    match hexVal? a, hexVal? b with
    | some x, some y => Char.ofNat (16 * x + y) :: percentDecodeChars rest
    | _, _ => '%' :: percentDecodeChars (a :: b :: rest)
  | c :: rest => c :: percentDecodeChars rest

/-- Models `percent_encoding::percent_decode_str(..).decode_utf8_lossy()`:
every valid `%XX` pair is replaced by the byte it denotes, anything else is
copied through.  Decoded bytes are mapped to the scalar value of the byte;
this coincides with the source for ASCII bytes, which is all the claims
exercise. -/
def percentDecode (s : String) : String :=
  String.mk (percentDecodeChars s.data)

def splitOnFirst (sep : Char) : List Char → Option (List Char × List Char)
  | [] => none
  | c :: cs =>
    if c = sep then some ([], cs)
    else (splitOnFirst sep cs).map (fun p => (c :: p.1, p.2))

/-- Models `url::Url::parse` for absolute `scheme://host[/path]` addresses
(userinfo, query and fragment are outside this model's scope; a port stays
inside the host component).  Strings without a scheme, such as a bare
relative path, fail to parse, as in the url crate. -/
def parseUrl (s : String) : Option Url :=
  match splitOnFirst ':' s.data with
  | none => none
  | some (scheme, rest) =>
    match rest with
    | '/' :: '/' :: rest2 =>
      if scheme = [] then none
      else
        match splitOnFirst '/' rest2 with
        | none => if rest2 = [] then none else some ⟨String.mk scheme, String.mk rest2, "/"⟩
        | some (host, pathRest) =>
          if host = [] then none
          else some ⟨String.mk scheme, String.mk host, encodePath (String.mk ('/' :: pathRest))⟩
    | _ => none

/-- Whether the string begins with a slash (`str::starts_with('/')` on the
paths the source tests). -/
def startsWithSlash (s : String) : Bool :=
  match s.data with
  | '/' :: _ => true
  | _ => false

/-- ASCII lowercasing of one character; on the ASCII strings the source
handles this is Rust `to_lowercase`. -/
def charToLower (c : Char) : Char :=
  if 65 ≤ c.toNat ∧ c.toNat ≤ 90 then Char.ofNat (c.toNat + 32) else c

/-- Models `str::to_lowercase` (ASCII scope). -/
def toLowerStr (s : String) : String :=
  String.mk (s.data.map charToLower)

/-- ASCII uppercasing of one character. -/
def charToUpper (c : Char) : Char :=
  if 97 ≤ c.toNat ∧ c.toNat ≤ 122 then Char.ofNat (c.toNat - 32) else c

/-- Models `str::to_uppercase` (ASCII scope). -/
def toUpperStr (s : String) : String :=
  String.mk (s.data.map charToUpper)

/-- `path.strip_prefix('/').unwrap_or(path)` from `src/http.rs` `join_url`:
remove one leading slash when present. -/
def stripLeadingSlash (path : String) : String :=
  match path.data with
  | '/' :: rest => String.mk rest
  | _ => path

/-- The base path up to and including its last slash — the prefix a relative
reference is merged onto (RFC 3986 section 5.3 merge, as the url crate
resolves relative references). -/
def dirOf (path : String) : String :=
  String.mk ((path.data.reverse.dropWhile (fun c => c ≠ '/')).reverse)

/-- From `src/http.rs` `join_url`: parse the base, strip one leading slash
from the operation path, and resolve the result as a relative reference
against the base URL (models `url::Url::join` for plain path references: a
reference still starting with a slash replaces the whole base path,
otherwise it is merged onto the base path up to and including its last
slash; new characters in the path percent-encode set are escaped.
References carrying a scheme, authority, query, fragment or dot segments
are outside this model's scope — no operation path in the claims has
them). -/
def join_url (base : String) (path : String) : Option Url :=
  (parseUrl base).map fun u =>
    let p := stripLeadingSlash path
    if p = "" then u
    else if startsWithSlash p then { u with path := encodePath p }
    else { u with path := encodePath (dirOf u.path ++ p) }

/-- Models `url::Url::set_path` for dot-segment-free paths: a leading slash
is ensured and characters in the path encode set are escaped. -/
def setPath (u : Url) (p : String) : Url :=
  { u with path := encodePath (if startsWithSlash p then p else "/" ++ p) }

/-- `base_path.trim_end_matches('/')`: remove every trailing slash. -/
def trimEndSlashes (s : String) : String :=
  String.mk ((s.data.reverse.dropWhile (fun c => c = '/')).reverse)

/-- From `src/main.rs` `execute_request` (lines 201-205), the self-contained
variant's effective-path computation: an operation path with a leading slash
is used verbatim, otherwise it is appended to the base URL's path (trailing
slashes trimmed) with a single separating slash. -/
def finalPathMain (base_path : String) (endpoint_path : String) : String :=
  if startsWithSlash endpoint_path then endpoint_path
  else trimEndSlashes base_path ++ "/" ++ endpoint_path

/-- One pass of literal substring replacement, fuelled so that the
definition is structurally recursive.  With enough fuel this is Rust
`str::replace` for a nonempty pattern: scan left to right, replace each
non-overlapping occurrence of `pat` by `rep`. -/
def replaceFuel (pat rep : List Char) : Nat → List Char → List Char
  | 0, s => s
  | _ + 1, [] => []
  | fuel + 1, c :: cs =>
    if pat ≠ [] ∧ pat.isPrefixOf (c :: cs) then
      rep ++ replaceFuel pat rep fuel ((c :: cs).drop pat.length)
    else
      c :: replaceFuel pat rep fuel cs

/-- Models Rust `str::replace` for a nonempty pattern (the source only ever
replaces the nonempty tokens `\x7bname\x7d` and `/`). -/
def replaceStr (s pat rep : String) : String :=
  if pat = "" then s
  else String.mk (replaceFuel pat.data rep.data (s.data.length + 1) s.data)

/-- The parameter loop of `src/http.rs` `handle_url_path`: for each declared
parameter in order, a supplied Path-location value percent-decodes the
current path and then replaces the `\x7bname\x7d` token literally; a missing
value for a required parameter (of any location) aborts with
`MissingRequiredParameterError`. -/
def interpolatePath : List Parameter → (String → Option String) → String →
    Except Errors String
  | [], _, acc => .ok acc
  | p :: rest, supplied, acc =>
    match supplied p.name with
    | some v =>
      if p.location = .Path then
        interpolatePath rest supplied (replaceStr (percentDecode acc) (braceToken p.name) v)
      else
        interpolatePath rest supplied acc
    | none =>
      if p.required then .error (.MissingRequiredParameterError p.name)
      else interpolatePath rest supplied acc

/-- From `src/http.rs` `handle_url_path`: parse the base URL, join the
operation path onto it, interpolate path parameters (checking required-ness
of every parameter), and set the resulting path back on the URL. -/
def handle_url_path (endpoint : Endpoint) (supplied : String → Option String)
    (base_url : String) : Except Errors Url :=
  match parseUrl base_url with
  | none => .error .UrlParseError
  | some _ =>
    match join_url base_url endpoint.path with
    | none => .error .UrlParseError
    | some url =>
      match interpolatePath endpoint.params supplied url.path with
      | .error e => .error e
      | .ok p => .ok (setPath url p)

/-- JSON values as deserialized by `serde_json::from_str::<Value>`.  Number
tokens are kept as their validated lexeme rather than converted to a machine
number; two descriptors built from the same text therefore compare equal
exactly when serde_json would produce equal values on the integral inputs
the claims use. -/
inductive Json where
  | null
  | bool (b : Bool)
  | num (lexeme : String)
  | str (s : String)
  | arr (elems : List Json)
  | obj (fields : List (String × Json))

def isJsonWs (c : Char) : Bool :=
  c = ' ' || c = '\t' || c = '\n' || c = '\r'

def skipWs (cs : List Char) : List Char :=
  cs.dropWhile isJsonWs

def isDigitChar (c : Char) : Bool :=
  decide (48 ≤ c.toNat ∧ c.toNat ≤ 57)

/-- The body of a JSON string after its opening quote: returns the decoded
characters and the remaining input past the closing quote.  Escapes and the
control-character / lone-surrogate rejections follow serde_json. -/
def parseJStringAux : List Char → Option (List Char × List Char)
  | [] => none
  | '"' :: rest => some ([], rest)
  | '\\' :: 'u' :: a :: b :: c :: d :: rest =>
    (match hexVal? a, hexVal? b, hexVal? c, hexVal? d with
     | some x, some y, some z, some w =>
       let n := ((x * 16 + y) * 16 + z) * 16 + w
       if 0xd800 ≤ n ∧ n ≤ 0xdbff then
         match rest with
         | '\\' :: 'u' :: e :: f :: g :: h :: rest2 =>
           (match hexVal? e, hexVal? f, hexVal? g, hexVal? h with
            | some x2, some y2, some z2, some w2 =>
              let m := ((x2 * 16 + y2) * 16 + z2) * 16 + w2
              if 0xdc00 ≤ m ∧ m ≤ 0xdfff then
                (parseJStringAux rest2).map fun r =>
                  (Char.ofNat (0x10000 + (n - 0xd800) * 0x400 + (m - 0xdc00)) :: r.1, r.2)
              else none
            | _, _, _, _ => none)
         | _ => none
       else if 0xdc00 ≤ n ∧ n ≤ 0xdfff then none
       else (parseJStringAux rest).map fun r => (Char.ofNat n :: r.1, r.2)
     | _, _, _, _ => none)
  | '\\' :: e :: rest =>
    (match e with
     | '"' => (parseJStringAux rest).map fun r => ('"' :: r.1, r.2)
     | '\\' => (parseJStringAux rest).map fun r => ('\\' :: r.1, r.2)
     | '/' => (parseJStringAux rest).map fun r => ('/' :: r.1, r.2)
     | 'b' => (parseJStringAux rest).map fun r => (Char.ofNat 8 :: r.1, r.2)
     | 'f' => (parseJStringAux rest).map fun r => (Char.ofNat 12 :: r.1, r.2)
     | 'n' => (parseJStringAux rest).map fun r => ('\n' :: r.1, r.2)
     | 'r' => (parseJStringAux rest).map fun r => (Char.ofNat 13 :: r.1, r.2)
     | 't' => (parseJStringAux rest).map fun r => ('\t' :: r.1, r.2)
     | _ => none)
  | c :: rest =>
    if c.toNat < 0x20 then none
    else (parseJStringAux rest).map fun r => (c :: r.1, r.2)

/-- The integer part of a JSON number: `0`, or a nonzero digit followed by
digits. -/
def parseIntPart : List Char → Option (List Char × List Char)
  | [] => none
  | c :: rest =>
    if c = '0' then some ([c], rest)
    else if isDigitChar c then
      some (c :: rest.takeWhile isDigitChar, rest.dropWhile isDigitChar)
    else none

def parseFracPart : List Char → Option (List Char × List Char)
  | '.' :: rest =>
    if (rest.takeWhile isDigitChar) = [] then none
    else some ('.' :: rest.takeWhile isDigitChar, rest.dropWhile isDigitChar)
  | cs => some ([], cs)

def parseExpDigits (sign : List Char) (cs : List Char) : Option (List Char × List Char) :=
  if (cs.takeWhile isDigitChar) = [] then none
  else some (sign ++ cs.takeWhile isDigitChar, cs.dropWhile isDigitChar)

def parseExpPart : List Char → Option (List Char × List Char)
  | c :: rest =>
    if c = 'e' ∨ c = 'E' then
      match rest with
      | '+' :: rest2 => parseExpDigits [c, '+'] rest2
      | '-' :: rest2 => parseExpDigits [c, '-'] rest2
      | rest2 => parseExpDigits [c] rest2
    else some ([], c :: rest)
  | [] => some ([], [])

def parseNumberNoSign (cs : List Char) : Option (List Char × List Char) := do
  let (i, r1) ← parseIntPart cs
  let (f, r2) ← parseFracPart r1
  let (e, r3) ← parseExpPart r2
  pure (i ++ f ++ e, r3)

/-- A JSON number token, per the serde_json grammar (no leading `+`, no
leading zeros, mandatory digits around `.` and after an exponent sign). -/
def parseNumber : List Char → Option (List Char × List Char)
  | '-' :: rest => (parseNumberNoSign rest).map fun r => ('-' :: r.1, r.2)
  | cs => parseNumberNoSign cs

mutual

/-- A JSON value, fuelled for structural recursion.  With fuel at least
twice the input length this models the serde_json value grammar. -/
def parseValue : Nat → List Char → Option (Json × List Char)
  | 0, _ => none
  | fuel + 1, cs =>
    match skipWs cs with
    | 'n' :: 'u' :: 'l' :: 'l' :: rest => some (.null, rest)
    | 't' :: 'r' :: 'u' :: 'e' :: rest => some (.bool true, rest)
    | 'f' :: 'a' :: 'l' :: 's' :: 'e' :: rest => some (.bool false, rest)
    | '"' :: rest => (parseJStringAux rest).map fun r => (.str (String.mk r.1), r.2)
    | '[' :: rest =>
      (match skipWs rest with
       | ']' :: r2 => some (.arr [], r2)
       | _ => (parseElements fuel rest).map fun r => (.arr r.1, r.2))
    | c :: rest =>
      if c = lbrace then
        match skipWs rest with
        | r2 :: r3 =>
          if r2 = rbrace then some (.obj [], r3)
          else (parseMembers fuel rest).map fun r => (.obj r.1, r.2)
        | [] => none
      else (parseNumber (c :: rest)).map fun r => (.num (String.mk r.1), r.2)
    | [] => none

/-- Comma-separated array elements up to the closing bracket. -/
def parseElements : Nat → List Char → Option (List Json × List Char)
  | 0, _ => none
  | fuel + 1, cs =>
    match parseValue fuel cs with
    | none => none
    | some (v, r) =>
      match skipWs r with
      | ',' :: r2 => (parseElements fuel r2).map fun p => (v :: p.1, p.2)
      | ']' :: r2 => some ([v], r2)
      | _ => none

/-- Comma-separated object members up to the closing brace. -/
def parseMembers : Nat → List Char → Option (List (String × Json) × List Char)
  | 0, _ => none
  | fuel + 1, cs =>
    match skipWs cs with
    | '"' :: r =>
      (match parseJStringAux r with
       | none => none
       | some (k, r2) =>
         match skipWs r2 with
         | ':' :: r3 =>
           (match parseValue fuel r3 with
            | none => none
            | some (v, r4) =>
              match skipWs r4 with
              | ',' :: r5 => (parseMembers fuel r5).map fun p => ((String.mk k, v) :: p.1, p.2)
              | c :: r5 => if c = rbrace then some ([(String.mk k, v)], r5) else none
              | [] => none)
         | _ => none)
    | _ => none

end

/-- Models `serde_json::from_str::<Value>`: parse one JSON value and require
that only whitespace follows it. -/
def parseJson (s : String) : Option Json :=
  match parseValue (2 * s.data.length + 8) s.data with
  | some (v, rest) => if skipWs rest = [] then some v else none
  | none => none

/-- Valid HTTP header-name byte — the token characters accepted by
`http::HeaderName::from_bytes`: ASCII letters and digits and
`! # $ % & ' * + - . ^ _ \x60 | ~`. -/
def isHeaderNameChar (c : Char) : Bool :=
  decide (48 ≤ c.toNat ∧ c.toNat ≤ 57) ||
  decide (97 ≤ c.toNat ∧ c.toNat ≤ 122) ||
  decide (65 ≤ c.toNat ∧ c.toNat ≤ 90) ||
  [33, 35, 36, 37, 38, 39, 42, 43, 45, 46, 94, 95, 96, 124, 126].contains c.toNat

/-- Models `http::HeaderName::from_bytes`: accepts a nonempty run of token
characters and canonicalizes to lowercase. -/
def headerNameFromBytes (s : String) : Option String :=
  if s.data ≠ [] ∧ s.data.all isHeaderNameChar then some (toLowerStr s) else none

/-- Valid header-value character as accepted by `http::HeaderValue::from_str`:
horizontal tab or any byte at least 32 other than DEL (bytes of non-ASCII
characters are all at least 128 and hence accepted). -/
def isHeaderValueChar (c : Char) : Bool :=
  decide (c.toNat = 9) || (decide (32 ≤ c.toNat) && decide (c.toNat ≠ 127))

/-- Models `http::HeaderValue::from_str`. -/
def headerValueFromStr (s : String) : Option String :=
  if s.data.all isHeaderValueChar then some s else none

/-- From `src/errors.rs`: `From<reqwest::header::InvalidHeaderName>` fills
the error's `name` field with the library error's display string — the
constant "invalid HTTP header name" — not with the offending parameter's
name. -/
def invalidHeaderNameError : Errors :=
  .InvalidHeaderName "invalid HTTP header name"

/-- From `src/errors.rs`: `From<reqwest::header::InvalidHeaderValue>` fills
the error's `name` field with the library error's display string — the
constant "failed to parse header value". -/
def invalidHeaderValueError : Errors :=
  .InvalidHeaderValue "failed to parse header value"

/-- `HeaderMap::insert`: all existing values for the (case-insensitively
canonicalized) key are removed and the new value stored. -/
def headerInsert (k v : String) (hs : List (String × String)) : List (String × String) :=
  hs.filter (fun p => p.1 ≠ k) ++ [(k, v)]

/-- Lookup in the modelled header map. -/
def headerGet (k : String) (hs : List (String × String)) : Option String :=
  (hs.find? (fun p => p.1 = k)).map Prod.snd

/-- The query pairs, headers and body accumulated by the second parameter
loop of `src/http.rs` `execute_request`. -/
structure Accum where
  query : List (String × String)
  headers : List (String × String)
  body : Option Json

/-- The second parameter loop of `src/http.rs` `execute_request` (lines
81-104): a supplied Query value appends a query pair, a supplied Body value
is parsed as JSON (failure is fatal), a supplied Header value is inserted
under the uppercased-then-canonicalized parameter name (invalid names or
values are fatal), and Path-location parameters are skipped.  A parameter
with no supplied value is skipped silently here. -/
def processParams : List Parameter → (String → Option String) → Accum →
    Except Errors Accum
  | [], _, acc => .ok acc
  | p :: rest, supplied, acc =>
    match supplied p.name with
    | none => processParams rest supplied acc
    | some v =>
      match p.location with
      | .Query =>
        processParams rest supplied { acc with query := acc.query ++ [(p.name, v)] }
      | .Body =>
        match parseJson v with
        | none => .error .SerdeJsonError
        | some j => processParams rest supplied { acc with body := some j }
      | .Header =>
        match headerNameFromBytes (toUpperStr p.name) with
        | none => .error invalidHeaderNameError
        | some hn =>
          match headerValueFromStr v with
          | none => .error invalidHeaderValueError
          | some hv =>
            processParams rest supplied { acc with headers := headerInsert hn hv acc.headers }
      | .Path => processParams rest supplied acc

/-- From `src/http.rs` `execute_request` (lines 106-118): if the
`AUTHORIZATION_BASIC_TOKEN` environment value is present, insert
`Authorization: Basic <token>`; afterwards, if `AUTHORIZATION_BEARER_TOKEN`
is present, insert `Authorization: Bearer <token>` — the second insert
overwrites the first.  The process environment is passed in as the two
optional values. -/
def applyEnvHeaders (basic bearer : Option String) (hs : List (String × String)) :
    Except Errors (List (String × String)) :=
  match
    (match basic with
     | none => Except.ok hs
     | some t =>
       match headerValueFromStr ("Basic " ++ t) with
       | none => Except.error invalidHeaderValueError
       | some v => Except.ok (headerInsert "authorization" v hs))
  with
  | .error e => .error e
  | .ok hs1 =>
    match bearer with
    | none => .ok hs1
    | some t =>
      match headerValueFromStr ("Bearer " ++ t) with
      | none => .error invalidHeaderValueError
      | some v => .ok (headerInsert "authorization" v hs1)

/-- From `src/http.rs` `execute_request` (lines 120-132): the method string
is lowercased and dispatched over the four supported verbs; anything else is
a fatal `UnsupportedHttpMethodError` carrying the lowercased string. -/
def methodDispatch (method : String) : Except Errors Method :=
  if toLowerStr method = "get" then .ok .GET
  else if toLowerStr method = "post" then .ok .POST
  else if toLowerStr method = "put" then .ok .PUT
  else if toLowerStr method = "delete" then .ok .DELETE
  else .error (.UnsupportedHttpMethodError (toLowerStr method))

/-- The send-ready request produced by the synthesizer, handed to the
transport (query pairs are kept alongside the URL they are appended to). -/
structure RequestDescriptor where
  method : Method
  url : Url
  query : List (String × String)
  headers : List (String × String)
  body : Option Json

/-- `reqwest::RequestBuilder::json`: attaching a JSON body sets the
`content-type: application/json` header when none is present. -/
def attachBody (body : Option Json) (hs : List (String × String)) : List (String × String) :=
  match body with
  | none => hs
  | some _ =>
    if (hs.find? (fun p => p.1 = "content-type")).isSome then hs
    else hs ++ [("content-type", "application/json")]

/-- From `src/http.rs` `execute_request`, modelled up to the hand-off to the
transport: compute the final URL (with required-parameter checking and path
interpolation), accumulate query/header/body values, inject environment
credentials, dispatch the method, and produce the send-ready descriptor —
or the error that aborts the invocation before anything is sent. -/
def execute_request (endpoint : Endpoint) (supplied : String → Option String)
    (base_url : String) (basic bearer : Option String) :
    Except Errors RequestDescriptor :=
  match handle_url_path endpoint supplied base_url with
  | .error e => .error e
  | .ok final_url =>
    match processParams endpoint.params supplied ⟨[], [], none⟩ with
    | .error e => .error e
    | .ok acc =>
      match applyEnvHeaders basic bearer acc.headers with
      | .error e => .error e
      | .ok hs =>
        match methodDispatch endpoint.method with
        | .error e => .error e
        | .ok m =>
          .ok { method := m, url := final_url, query := acc.query,
                headers := attachBody acc.body hs, body := acc.body }

/-- From the openapiv3 crate as consumed by `src/openapi.rs`: one declared
parameter (`openapiv3::Parameter`), reduced to its variant and its
parameter_data's name and required flag. -/
inductive OAParameter where
  | query (name : String) (required : Bool)
  | header (name : String) (required : Bool)
  | path (name : String) (required : Bool)
  | cookie (name : String) (required : Bool)
deriving DecidableEq

/-- `openapiv3::RequestBody`, reduced to its required flag. -/
structure OARequestBody where
  required : Bool
deriving DecidableEq

/-- `openapiv3::Operation`, reduced to the fields `src/openapi.rs` reads.
`ReferenceOr<T>` is modelled as `Option T` with `none` standing for a
reference. -/
structure OAOperation where
  operation_id : Option String
  parameters : List (Option OAParameter)
  request_body : Option (Option OARequestBody)
deriving DecidableEq

/-- `openapiv3::PathItem`, reduced to the four method handlers read by
`add_endpoint_for_method`. -/
structure OAPathItem where
  get : Option OAOperation
  post : Option OAOperation
  put : Option OAOperation
  delete : Option OAOperation
deriving DecidableEq

/-- The document's path map (`spec.paths`): insertion-ordered entries whose
keys are unique in a parsed document; `none` models a referenced path
item (skipped by `extract_endpoints`). -/
abbrev OADocPaths := List (String × Option OAPathItem)

/-- From `src/openapi.rs` `parse_params`.  The source's `todo!()` panics —
on a referenced parameter or a Cookie-location parameter — are modelled as
`none`. -/
def parse_params : List (Option OAParameter) → Option (List Parameter)
  | [] => some []
  | none :: _ => none
  | some (.query n r) :: rest =>
    (parse_params rest).map (fun ps => ⟨n, .Query, r, "string"⟩ :: ps)
  | some (.header n r) :: rest =>
    (parse_params rest).map (fun ps => ⟨n, .Header, r, "string"⟩ :: ps)
  | some (.path n r) :: rest =>
    (parse_params rest).map (fun ps => ⟨n, .Path, r, "string"⟩ :: ps)
  | some (.cookie _ _) :: _ => none

/-- The method match at the top of `add_endpoint_for_method`. -/
def getOperation (item : OAPathItem) (method : String) : Option OAOperation :=
  if method = "get" then item.get
  else if method = "post" then item.post
  else if method = "put" then item.put
  else if method = "delete" then item.delete
  else none

/-- From `src/openapi.rs` `add_endpoint_for_method`: when the path item has
a handler for the method, build its Endpoint — name from `operation_id` or
synthesized as `method_path-with-slashes-replaced-by-underscores`,
parameters from `parse_params` with a Body parameter named "body" appended
exactly when a request body is declared — and push it.  The `todo!()` on a
referenced request body, like the panics inside `parse_params`, is modelled
as `none`. -/
def add_endpoint_for_method (method path : String) (path_item : OAPathItem)
    (endpoints : List Endpoint) : Option (List Endpoint) :=
  match getOperation path_item method with
  | none => some endpoints
  | some op =>
    let name := op.operation_id.getD (method ++ "_" ++ replaceStr path "/" "_")
    match parse_params op.parameters with
    | none => none
    | some ps =>
      match op.request_body with
      | none => some (endpoints ++ [⟨name, method, path, ps⟩])
      | some none => none
      | some (some rb) =>
        some (endpoints ++ [⟨name, method, path, ps ++ [⟨"body", .Body, rb.required, "json"⟩]⟩])

/-- The traversal inside `extract_endpoints`: each present path item is
offered to `add_endpoint_for_method` for the four supported methods, in the
order get, post, put, delete. -/
def extractGo : OADocPaths → List Endpoint → Option (List Endpoint)
  | [], acc => some acc
  | (path, item?) :: rest, acc =>
    match item? with
    | none => extractGo rest acc
    | some item =>
      match add_endpoint_for_method "get" path item acc with
      | none => none
      | some a1 =>
        match add_endpoint_for_method "post" path item a1 with
        | none => none
        | some a2 =>
          match add_endpoint_for_method "put" path item a2 with
          | none => none
          | some a3 =>
            match add_endpoint_for_method "delete" path item a3 with
            | none => none
            | some a4 => extractGo rest a4

/-- From `src/openapi.rs` `extract_endpoints`.  A panic during extraction
(modelled as `none`) aborts the whole process and produces no catalog. -/
def extract_endpoints (paths : OADocPaths) : Option (List Endpoint) :=
  extractGo paths []

/-- The number of catalog operations carrying a given (path, method)
pair. -/
def countPM (es : List Endpoint) (p m : String) : Nat :=
  es.countP (fun e => decide (e.path = p ∧ e.method = m))

/-- Whether a document path entry declares a handler for the method. -/
def hasHandler (item? : Option OAPathItem) (m : String) : Bool :=
  match item? with
  | some item => (getOperation item m).isSome
  | none => false

/-- The number of document entries declaring the (path, method) pair. -/
def declaredCount (paths : OADocPaths) (p m : String) : Nat :=
  paths.countP (fun entry => decide (entry.1 = p) && hasHandler entry.2 m)

/-- Modelled from the spec: the `--server` override argument and its
precedence are not in src/ (the `src/main.rs` variant there has no such
argument); per the spec, a supplied override is the address used for
synthesis.  The document-server / fallback choice below it follows
`src/main.rs` lines 288-291: the first declared server, else the fixed
fallback "http://localhost:3000". -/
def resolveBaseUrl (serverOverride : Option String) (servers : List String) : String :=
  match serverOverride with
  | some s => s
  | none =>
    match servers.head? with
    | some s => s
    | none => "http://localhost:3000"

/-! ## Theorems -/

/-- C1: the claimed effective-path rule — a leading-slash operation path
replaces the base URL's path, any other path is appended to the base path
(trailing slash trimmed) with a single separating slash — is exactly what
the `src/main.rs` variant computes, but `src/http.rs` `join_url` diverges
from it: having stripped the leading slash it resolves the operation path
as a relative reference, so base `https://api.example.com/v2` with relative
operation path `items` yields `https://api.example.com/items` — the base
path's last segment is dropped — and not the claimed
`https://api.example.com/v2/items`. -/
theorem claim1_effective_path_code_bug :
    (join_url "https://api.example.com/v2" "items").map Url.render =
      some "https://api.example.com/items" ∧
    (join_url "https://api.example.com/v2" "/items").map Url.render =
      some "https://api.example.com/items" ∧
    (handle_url_path ⟨"listItems", "get", "items", []⟩ (fun _ => none)
        "https://api.example.com/v2").map Url.render =
      .ok "https://api.example.com/items" ∧
    finalPathMain "/v2" "items" = "/v2/items" ∧
    finalPathMain "/v2" "/items" = "/items" := by
  refine ⟨?_, ?_, ?_, ?_, ?_⟩ <;> rfl

/-- C4: a supplied `--server` override is the base address used for
synthesis, ahead of the document's declared server list; with no override
and no declared server the fixed fallback address is used. -/
theorem claim4_server_precedence :
    (∀ serverOverride servers, resolveBaseUrl (some serverOverride) servers = serverOverride) ∧
    (∀ s rest, resolveBaseUrl none (s :: rest) = s) ∧
    resolveBaseUrl none [] = "http://localhost:3000" :=
  ⟨fun _ _ => rfl, fun _ _ => rfl, rfl⟩

/-- C8: the claim that `InvalidHeaderName` carries the offending
parameter's name fails on the code: the `From` conversions in
`src/errors.rs` fill the `name` field with the library error's display
string, a constant.  For the Header parameter named "bad name" (supplied
value "v") synthesis yields `InvalidHeaderName` carrying
"invalid HTTP header name", not "bad name"; for parameter "x-token" with a
non-representable value it yields `InvalidHeaderValue` carrying
"failed to parse header value", not "x-token". -/
theorem claim8_header_error_attribution :
    execute_request ⟨"listItems", "get", "/items", [⟨"bad name", .Header, false, "string"⟩]⟩
        (fun n => if n = "bad name" then some "v" else none)
        "https://api.example.com" none none =
      .error (.InvalidHeaderName "invalid HTTP header name") ∧
    ("invalid HTTP header name" : String) ≠ "bad name" ∧
    execute_request ⟨"listItems", "get", "/items", [⟨"x-token", .Header, false, "string"⟩]⟩
        (fun n => if n = "x-token" then some "bad\nvalue" else none)
        "https://api.example.com" none none =
      .error (.InvalidHeaderValue "failed to parse header value") ∧
    ("failed to parse header value" : String) ≠ "x-token" := by
  refine ⟨?_, by decide, ?_, by decide⟩ <;> rfl

/-- C5 counterexample: for the operation method string "PATCH" — outside
the supported set when compared case-insensitively — the code returns
`UnsupportedHttpMethodError "patch"`, the lowercased string, and not an
error naming the offending method string "PATCH" itself. -/
theorem claim5_method_case_counterexample :
    execute_request ⟨"patchItem", "PATCH", "/items", []⟩ (fun _ => none)
        "https://api.example.com" none none =
      .error (.UnsupportedHttpMethodError "patch") ∧
    execute_request ⟨"patchItem", "PATCH", "/items", []⟩ (fun _ => none)
        "https://api.example.com" none none ≠
      .error (.UnsupportedHttpMethodError "PATCH") := by
  have h1 : execute_request ⟨"patchItem", "PATCH", "/items", []⟩ (fun _ => none)
      "https://api.example.com" none none =
      .error (.UnsupportedHttpMethodError "patch") := rfl
  refine ⟨h1, fun h => ?_⟩
  rw [h1] at h
  injection h with h2
  injection h2 with h3
  exact absurd h3 (by decide)

/-- C5 (amended): when the operation's method string lowercases to
something outside get/post/put/delete and every earlier synthesis stage
succeeds, request construction fails with `UnsupportedHttpMethodError`
carrying the lowercased method string — no request descriptor is produced,
so nothing is sent. -/
theorem claim5_unsupported_method_amended
    (ep : Endpoint) (supplied : String → Option String) (base : String)
    (basic bearer : Option String) (u : Url) (acc : Accum)
    (hs : List (String × String))
    (h1 : handle_url_path ep supplied base = .ok u)
    (h2 : processParams ep.params supplied ⟨[], [], none⟩ = .ok acc)
    (h3 : applyEnvHeaders basic bearer acc.headers = .ok hs)
    (h4 : toLowerStr ep.method ∉ (["get", "post", "put", "delete"] : List String)) :
    execute_request ep supplied base basic bearer =
      .error (.UnsupportedHttpMethodError (toLowerStr ep.method)) := by
  simp only [List.mem_cons, List.not_mem_nil, or_false, not_or] at h4
  obtain ⟨n1, n2, n3, n4⟩ := h4
  simp only [execute_request, h1, h2, h3, methodDispatch,
    if_neg n1, if_neg n2, if_neg n3, if_neg n4]

/-- Witness for the amended C5 theorem at the spec's own example: method
string "patch" on a parameterless operation. -/
theorem claim5_unsupported_method_amended_witness :
    execute_request ⟨"patchItem", "patch", "/items", []⟩ (fun _ => none)
        "https://api.example.com" none none =
      .error (.UnsupportedHttpMethodError (toLowerStr "patch")) :=
  claim5_unsupported_method_amended _ _ _ none none
    ⟨"https", "api.example.com", "/items"⟩ ⟨[], [], none⟩ [] rfl rfl rfl (by decide)

/-- Looking up the key just inserted returns the inserted value: the insert
removed every other entry under that key. -/
theorem headerGet_insert (k v : String) (hs : List (String × String)) :
    headerGet k (headerInsert k v hs) = some v := by
  unfold headerGet headerInsert
  rw [List.find?_append]
  have hnone : (hs.filter (fun p => p.1 ≠ k)).find? (fun p => p.1 = k) = none := by
    rw [List.find?_eq_none]
    intro x hx
    have hmem := List.of_mem_filter hx
    simp only [decide_eq_true_eq, decide_not, Bool.not_eq_true', decide_eq_false_iff_not] at hmem ⊢
    exact hmem
  rw [hnone]
  simp [List.find?]

/-- C3: each supplied Path-location parameter first percent-decodes the
current effective path and then literally replaces its brace token with the
raw value, one parameter at a time against the progressively updated path;
on the template `/users/\x7bid\x7d/posts/\x7bpostId\x7d` with id = "42" and
postId = "7" the synthesized path is `/users/42/posts/7`, with no residual
brace token. -/
theorem claim3_path_substitution :
    (∀ (p : Parameter) (rest : List Parameter) (supplied : String → Option String)
       (acc v : String), supplied p.name = some v → p.location = .Path →
       interpolatePath (p :: rest) supplied acc =
         interpolatePath rest supplied
           (replaceStr (percentDecode acc) (braceToken p.name) v)) ∧
    (handle_url_path
        ⟨"getPost", "get", "/users/\x7bid\x7d/posts/\x7bpostId\x7d",
          [⟨"id", .Path, true, "string"⟩, ⟨"postId", .Path, true, "string"⟩]⟩
        (fun n => if n = "id" then some "42" else if n = "postId" then some "7" else none)
        "http://localhost:3000").map Url.path = .ok "/users/42/posts/7" ∧
    (∀ c ∈ "/users/42/posts/7".data, c ≠ lbrace ∧ c ≠ rbrace) := by
  refine ⟨?_, by rfl, by decide⟩
  intro p rest supplied acc v hv hloc
  simp [interpolatePath, hv, hloc]

/-- Witness for the C3 decode-then-replace step at a concrete parameter and
accumulated path. -/
theorem claim3_path_substitution_witness :
    interpolatePath [⟨"id", ParameterLocation.Path, true, "string"⟩]
      (fun n => if n = "id" then some "42" else none) "/users/%7Bid%7D" =
    interpolatePath []
      (fun n => if n = "id" then some "42" else none)
      (replaceStr (percentDecode "/users/%7Bid%7D") (braceToken "id") "42") :=
  claim3_path_substitution.1 ⟨"id", ParameterLocation.Path, true, "string"⟩ []
    (fun n => if n = "id" then some "42" else none) "/users/%7Bid%7D" "42"
    (by decide) rfl

/-- C7: a supplied Body-location value is parsed as JSON text — reaching a
Body parameter whose value does not parse aborts processing with the
serde_json error (the spec's InvalidBody) before any descriptor exists,
while the example body text produces a descriptor whose body is the
equivalent structured value, sent with a JSON content type. -/
theorem claim7_body_json :
    (∀ (r : Bool) (tpe : String) (rest : List Parameter)
       (supplied : String → Option String) (acc : Accum) (v : String),
       supplied "body" = some v → parseJson v = none →
       processParams (⟨"body", ParameterLocation.Body, r, tpe⟩ :: rest) supplied acc =
         .error .SerdeJsonError) ∧
    execute_request ⟨"createItem", "post", "/items", [⟨"body", .Body, true, "json"⟩]⟩
        (fun n => if n = "body" then some "\x7b\"a\":1\x7d" else none)
        "https://api.example.com" none none =
      .ok { method := .POST, url := ⟨"https", "api.example.com", "/items"⟩,
            query := [], headers := [("content-type", "application/json")],
            body := some (.obj [("a", .num "1")]) } ∧
    execute_request ⟨"createItem", "post", "/items", [⟨"body", .Body, true, "json"⟩]⟩
        (fun n => if n = "body" then some "not json" else none)
        "https://api.example.com" none none =
      .error .SerdeJsonError := by
  refine ⟨?_, by rfl, by rfl⟩
  intro r tpe rest supplied acc v hv hj
  simp [processParams, hv, hj]

/-- Witness for the C7 invalid-body step at the spec's own example text. -/
theorem claim7_body_json_witness :
    processParams [⟨"body", ParameterLocation.Body, true, "json"⟩]
      (fun n => if n = "body" then some "not json" else none) ⟨[], [], none⟩ =
      .error .SerdeJsonError :=
  claim7_body_json.1 true "json" []
    (fun n => if n = "body" then some "not json" else none)
    ⟨[], [], none⟩ "not json" (by decide) (by rfl)

/-- C9: with both credential environment values set, the Basic header is
inserted first and the Bearer header afterwards under the same
`authorization` key, so the final header map deterministically carries the
Bearer value — last write wins. -/
theorem claim9_bearer_last_write_wins (basic bearer : String)
    (hs hs2 : List (String × String))
    (h : applyEnvHeaders (some basic) (some bearer) hs = .ok hs2) :
    headerGet "authorization" hs2 = some ("Bearer " ++ bearer) := by
  unfold applyEnvHeaders at h
  cases hb : headerValueFromStr ("Basic " ++ basic) with
  | none => simp [hb] at h
  | some vb =>
    cases hv : headerValueFromStr ("Bearer " ++ bearer) with
    | none => simp [hb, hv] at h
    | some vv =>
      have hvv : vv = "Bearer " ++ bearer := by
        unfold headerValueFromStr at hv
        split at hv
        · exact (Option.some_inj.mp hv).symm
        · cases hv
      simp only [hb, hv] at h
      injection h with h2
      rw [← h2, headerGet_insert, hvv]

/-- Witness for C9 with both tokens concrete. -/
theorem claim9_bearer_last_write_wins_witness :
    headerGet "authorization" [("authorization", "Bearer tok")] =
      some ("Bearer " ++ "tok") :=
  claim9_bearer_last_write_wins "user:pass" "tok" []
    [("authorization", "Bearer tok")] (by rfl)

/-- If some required parameter has no supplied value, the interpolation
loop of `handle_url_path` fails with `MissingRequiredParameterError` for
such a parameter, whatever the accumulated path. -/
theorem interpolatePath_missing (params : List Parameter)
    (supplied : String → Option String) :
    (∃ p ∈ params, p.required = true ∧ supplied p.name = none) →
    ∃ q ∈ params, q.required = true ∧ supplied q.name = none ∧
      ∀ acc, interpolatePath params supplied acc =
        .error (.MissingRequiredParameterError q.name) := by
  induction params with
  | nil =>
    rintro ⟨p, hp, -⟩
    exact absurd hp (List.not_mem_nil p)
  | cons p0 rest ih =>
    rintro ⟨p, hp, hreq, hnone⟩
    cases hs : supplied p0.name with
    | some v =>
      have hpr : p ∈ rest := by
        rcases List.mem_cons.mp hp with h0 | h0
        · subst h0; rw [hs] at hnone; cases hnone
        · exact h0
      obtain ⟨q, hq, hq1, hq2, hq3⟩ := ih ⟨p, hpr, hreq, hnone⟩
      refine ⟨q, List.mem_cons_of_mem _ hq, hq1, hq2, fun acc => ?_⟩
      by_cases hl : p0.location = ParameterLocation.Path
      · simp only [interpolatePath, hs, hl, if_true, eq_self_iff_true]
        exact hq3 _
      · simp only [interpolatePath, hs, if_neg hl]
        exact hq3 _
    | none =>
      by_cases hr : p0.required = true
      · refine ⟨p0, List.mem_cons_self _ _, hr, hs, fun acc => ?_⟩
        simp only [interpolatePath, hs, hr, if_true]
      · have hpr : p ∈ rest := by
          rcases List.mem_cons.mp hp with h0 | h0
          · subst h0; exact absurd hreq hr
          · exact h0
        obtain ⟨q, hq, hq1, hq2, hq3⟩ := ih ⟨p, hpr, hreq, hnone⟩
        refine ⟨q, List.mem_cons_of_mem _ hq, hq1, hq2, fun acc => ?_⟩
        rw [Bool.not_eq_true] at hr
        simp only [interpolatePath, hs, hr, if_false, Bool.false_eq_true]
        exact hq3 _

/-- With every required parameter supplied, the interpolation loop
succeeds. -/
theorem interpolatePath_ok (params : List Parameter)
    (supplied : String → Option String)
    (hall : ∀ p ∈ params, p.required = true → (supplied p.name).isSome) :
    ∀ acc, ∃ s, interpolatePath params supplied acc = .ok s := by
  induction params with
  | nil => exact fun acc => ⟨acc, rfl⟩
  | cons p0 rest ih =>
    have hall' : ∀ p ∈ rest, p.required = true → (supplied p.name).isSome :=
      fun p hp => hall p (List.mem_cons_of_mem _ hp)
    intro acc
    cases hs : supplied p0.name with
    | some v =>
      by_cases hl : p0.location = ParameterLocation.Path
      · obtain ⟨s, hsx⟩ := ih hall' (replaceStr (percentDecode acc) (braceToken p0.name) v)
        refine ⟨s, ?_⟩
        simp only [interpolatePath, hs, hl, if_true, eq_self_iff_true]
        exact hsx
      · obtain ⟨s, hsx⟩ := ih hall' acc
        refine ⟨s, ?_⟩
        simp only [interpolatePath, hs, if_neg hl]
        exact hsx
    | none =>
      have hr : p0.required = false := by
        cases hreq : p0.required
        · rfl
        · have := hall p0 (List.mem_cons_self _ _) hreq
          rw [hs] at this
          cases this
      obtain ⟨s, hsx⟩ := ih hall' acc
      refine ⟨s, ?_⟩
      simp only [interpolatePath, hs, hr, if_false, Bool.false_eq_true]
      exact hsx

/-- The query/header/body loop never produces a
`MissingRequiredParameterError` — its errors are the body-parse and header
failures. -/
theorem processParams_not_missing (params : List Parameter)
    (supplied : String → Option String) (n : String) :
    ∀ acc, processParams params supplied acc ≠
      .error (.MissingRequiredParameterError n) := by
  induction params with
  | nil => intro acc h; cases h
  | cons p rest ih =>
    intro acc h
    cases hs : supplied p.name with
    | none =>
      simp only [processParams, hs] at h
      exact ih _ h
    | some v =>
      cases hl : p.location with
      | Query =>
        simp only [processParams, hs, hl] at h
        exact ih _ h
      | Path =>
        simp only [processParams, hs, hl] at h
        exact ih _ h
      | Body =>
        cases hj : parseJson v with
        | none => simp only [processParams, hs, hl, hj] at h; cases h
        | some j =>
          simp only [processParams, hs, hl, hj] at h
          exact ih _ h
      | Header =>
        cases hn : headerNameFromBytes (toUpperStr p.name) with
        | none =>
          simp only [processParams, hs, hl, hn, invalidHeaderNameError] at h
          cases h
        | some hnv =>
          cases hvv : headerValueFromStr v with
          | none =>
            simp only [processParams, hs, hl, hn, hvv, invalidHeaderValueError] at h
            cases h
          | some hvval =>
            simp only [processParams, hs, hl, hn, hvv] at h
            exact ih _ h

/-- Credential injection never produces a
`MissingRequiredParameterError`. -/
theorem applyEnvHeaders_not_missing (basic bearer : Option String)
    (hs : List (String × String)) (n : String) :
    applyEnvHeaders basic bearer hs ≠
      .error (.MissingRequiredParameterError n) := by
  intro h
  unfold applyEnvHeaders at h
  cases basic with
  | none =>
    cases bearer with
    | none => cases h
    | some t =>
      cases hv : headerValueFromStr ("Bearer " ++ t) with
      | none => simp only [hv, invalidHeaderValueError] at h; cases h
      | some v => simp only [hv] at h; cases h
  | some tb =>
    cases hb : headerValueFromStr ("Basic " ++ tb) with
    | none => simp only [hb, invalidHeaderValueError] at h; cases h
    | some vb =>
      cases bearer with
      | none => simp only [hb] at h; cases h
      | some t =>
        cases hv : headerValueFromStr ("Bearer " ++ t) with
        | none => simp only [hb, hv, invalidHeaderValueError] at h; cases h
        | some v => simp only [hb, hv] at h; cases h

/-- Method dispatch never produces a `MissingRequiredParameterError`. -/
theorem methodDispatch_not_missing (m n : String) :
    methodDispatch m ≠ .error (.MissingRequiredParameterError n) := by
  intro h
  unfold methodDispatch at h
  split at h
  · cases h
  · split at h
    · cases h
    · split at h
      · cases h
      · split at h
        · cases h
        · injection h with h2; cases h2

/-- With every required parameter supplied, `handle_url_path` never fails
with a `MissingRequiredParameterError`. -/
theorem handle_url_path_not_missing (ep : Endpoint)
    (supplied : String → Option String) (base : String) (n : String)
    (hall : ∀ p ∈ ep.params, p.required = true → (supplied p.name).isSome) :
    handle_url_path ep supplied base ≠
      .error (.MissingRequiredParameterError n) := by
  intro h
  unfold handle_url_path at h
  cases hp : parseUrl base with
  | none => simp only [hp] at h; cases h
  | some u =>
    cases hj : join_url base ep.path with
    | none => simp only [hp, hj] at h; cases h
    | some url =>
      obtain ⟨s, hsx⟩ := interpolatePath_ok ep.params supplied hall url.path
      simp only [hp, hj, hsx] at h
      cases h

/-- C2: if any declared parameter is required and unsupplied, request
construction fails with `MissingRequiredParameterError` carrying the name
of such a parameter, whatever its location, and no descriptor is produced;
if every required parameter is supplied the error never occurs. -/
theorem claim2_missing_required_parameter :
    (∀ (ep : Endpoint) (supplied : String → Option String) (base : String)
       (basic bearer : Option String) (u : Url),
       parseUrl base = some u →
       (∃ p ∈ ep.params, p.required = true ∧ supplied p.name = none) →
       ∃ q ∈ ep.params, q.required = true ∧ supplied q.name = none ∧
         execute_request ep supplied base basic bearer =
           .error (.MissingRequiredParameterError q.name)) ∧
    (∀ (ep : Endpoint) (supplied : String → Option String) (base : String)
       (basic bearer : Option String) (n : String),
       (∀ p ∈ ep.params, p.required = true → (supplied p.name).isSome) →
       execute_request ep supplied base basic bearer ≠
         .error (.MissingRequiredParameterError n)) := by
  constructor
  · intro ep supplied base basic bearer u hu hex
    obtain ⟨q, hq, hq1, hq2, hq3⟩ := interpolatePath_missing ep.params supplied hex
    refine ⟨q, hq, hq1, hq2, ?_⟩
    simp only [execute_request, handle_url_path, join_url, hu, Option.map_some', hq3]
  · intro ep supplied base basic bearer n hall h
    unfold execute_request at h
    cases hr : handle_url_path ep supplied base with
    | error e =>
      simp only [hr] at h
      injection h with h2
      exact handle_url_path_not_missing ep supplied base n hall (h2 ▸ hr)
    | ok u =>
      simp only [hr] at h
      cases hpp : processParams ep.params supplied ⟨[], [], none⟩ with
      | error e =>
        simp only [hpp] at h
        injection h with h2
        exact processParams_not_missing ep.params supplied n _ (h2 ▸ hpp)
      | ok acc =>
        simp only [hpp] at h
        cases hae : applyEnvHeaders basic bearer acc.headers with
        | error e =>
          simp only [hae] at h
          injection h with h2
          exact applyEnvHeaders_not_missing basic bearer acc.headers n (h2 ▸ hae)
        | ok hs2 =>
          simp only [hae] at h
          cases hmd : methodDispatch ep.method with
          | error e =>
            simp only [hmd] at h
            injection h with h2
            exact methodDispatch_not_missing ep.method n (h2 ▸ hmd)
          | ok m =>
            simp only [hmd] at h
            cases h

/-- Witness for C2: a required Query parameter with no supplied value
aborts with its name; the same invocation with the value supplied does not
produce the error. -/
theorem claim2_missing_required_parameter_witness :
    (∃ q ∈ ([⟨"id", ParameterLocation.Query, true, "string"⟩] : List Parameter),
       q.required = true ∧ (fun _ => (none : Option String)) q.name = none ∧
       execute_request ⟨"getItem", "get", "/items", [⟨"id", .Query, true, "string"⟩]⟩
         (fun _ => none) "https://api.example.com" none none =
         .error (.MissingRequiredParameterError q.name)) ∧
    execute_request ⟨"getItem", "get", "/items", [⟨"id", .Query, true, "string"⟩]⟩
      (fun _ => some "42") "https://api.example.com" none none ≠
      .error (.MissingRequiredParameterError "id") := by
  constructor
  · exact claim2_missing_required_parameter.1
      ⟨"getItem", "get", "/items", [⟨"id", .Query, true, "string"⟩]⟩
      (fun _ => none) "https://api.example.com" none none
      ⟨"https", "api.example.com", "/"⟩ (by rfl)
      ⟨⟨"id", .Query, true, "string"⟩, by decide, rfl, rfl⟩
  · exact claim2_missing_required_parameter.2
      ⟨"getItem", "get", "/items", [⟨"id", .Query, true, "string"⟩]⟩
      (fun _ => some "42") "https://api.example.com" none none "id"
      (fun p hp hr => rfl)

/-- C10: the query/header/body pass skips every Path-location parameter, so
two supplied-value bindings that agree on every non-Path parameter name
produce identical query pairs, headers and body — supplying or withholding
Path-location values cannot change them. -/
theorem claim10_path_frame (params : List Parameter)
    (b b' : String → Option String) (acc : Accum)
    (h : ∀ p ∈ params, p.location ≠ .Path → b p.name = b' p.name) :
    processParams params b acc = processParams params b' acc := by
  induction params generalizing acc with
  | nil => rfl
  | cons p rest ih =>
    have hrest : ∀ q ∈ rest, q.location ≠ .Path → b q.name = b' q.name :=
      fun q hq => h q (List.mem_cons_of_mem _ hq)
    by_cases hloc : p.location = ParameterLocation.Path
    · cases hb : b p.name <;> cases hb' : b' p.name <;>
        simp only [processParams, hb, hb', hloc] <;> exact ih _ hrest
    · have hbv : b p.name = b' p.name := h p (List.mem_cons_self p rest) hloc
      cases hb : b p.name with
      | none =>
        have hb' : b' p.name = none := hbv.symm.trans hb
        simp only [processParams, hb, hb']
        exact ih _ hrest
      | some v =>
        have hb' : b' p.name = some v := hbv.symm.trans hb
        cases hl : p.location with
        | Path => exact absurd hl hloc
        | Query =>
          simp only [processParams, hb, hb', hl]
          exact ih _ hrest
        | Body =>
          cases hj : parseJson v with
          | none => simp only [processParams, hb, hb', hl, hj]
          | some j =>
            simp only [processParams, hb, hb', hl, hj]
            exact ih _ hrest
        | Header =>
          cases hn : headerNameFromBytes (toUpperStr p.name) with
          | none => simp only [processParams, hb, hb', hl, hn]
          | some hnv =>
            cases hvv : headerValueFromStr v with
            | none => simp only [processParams, hb, hb', hl, hn, hvv]
            | some hvval =>
              simp only [processParams, hb, hb', hl, hn, hvv]
              exact ih _ hrest

/-- Effect of one `add_endpoint_for_method` call on a (path, method) count:
on success the count grows by one exactly when the call's path and method
match and the path item has the handler. -/
theorem add_endpoint_count (m1 p1 : String) (item : OAPathItem)
    (acc acc' : List Endpoint) (p m : String)
    (h : add_endpoint_for_method m1 p1 item acc = some acc') :
    countPM acc' p m = countPM acc p m +
      (if p1 = p ∧ m1 = m ∧ (getOperation item m1).isSome then 1 else 0) := by
  unfold add_endpoint_for_method at h
  cases hop : getOperation item m1 with
  | none =>
    simp only [hop] at h
    injection h with h2
    subst h2
    simp [hop]
  | some op =>
    simp only [hop] at h
    cases hpp : parse_params op.parameters with
    | none => simp only [hpp] at h; cases h
    | some ps =>
      simp only [hpp] at h
      cases hrb : op.request_body with
      | none =>
        simp only [hrb] at h
        injection h with h2
        subst h2
        unfold countPM
        rw [List.countP_append]
        congr 1
        rw [List.countP_singleton]
        by_cases hc : p1 = p ∧ m1 = m
        · simp [hc.1, hc.2, hop]
        · rw [not_and_or] at hc
          rcases hc with hc | hc <;> simp [hc]
      | some rb? =>
        cases rb? with
        | none => simp only [hrb] at h; cases h
        | some rb =>
          simp only [hrb] at h
          injection h with h2
          subst h2
          unfold countPM
          rw [List.countP_append]
          congr 1
          rw [List.countP_singleton]
          by_cases hc : p1 = p ∧ m1 = m
          · simp [hc.1, hc.2, hop]
          · rw [not_and_or] at hc
            rcases hc with hc | hc <;> simp [hc]

/-- Effect of the four chained `add_endpoint_for_method` calls for one
document entry: for a supported method the (path, method) count grows by
one exactly when the entry's path matches and it declares a handler. -/
theorem four_adds_count (p1 p m : String) (item : OAPathItem)
    (hm : m ∈ (["get", "post", "put", "delete"] : List String))
    (acc a1 a2 a3 a4 : List Endpoint)
    (h1 : add_endpoint_for_method "get" p1 item acc = some a1)
    (h2 : add_endpoint_for_method "post" p1 item a1 = some a2)
    (h3 : add_endpoint_for_method "put" p1 item a2 = some a3)
    (h4 : add_endpoint_for_method "delete" p1 item a3 = some a4) :
    countPM a4 p m = countPM acc p m +
      (if p1 = p ∧ hasHandler (some item) m then 1 else 0) := by
  have e1 := add_endpoint_count "get" p1 item acc a1 p m h1
  have e2 := add_endpoint_count "post" p1 item a1 a2 p m h2
  have e3 := add_endpoint_count "put" p1 item a2 a3 p m h3
  have e4 := add_endpoint_count "delete" p1 item a3 a4 p m h4
  rw [e4, e3, e2, e1]
  simp only [List.mem_cons, List.not_mem_nil, or_false] at hm
  by_cases hp : p1 = p
  · cases hh : (getOperation item m).isSome with
    | true =>
      rcases hm with rfl | rfl | rfl | rfl <;> simp [hp, hh, hasHandler]
    | false =>
      rcases hm with rfl | rfl | rfl | rfl <;> simp [hp, hh, hasHandler]
  · simp [hp]

/-- Every endpoint added by `add_endpoint_for_method` carries that call's
method string. -/
theorem add_endpoint_mem (m1 p1 : String) (item : OAPathItem)
    (acc acc' : List Endpoint)
    (h : add_endpoint_for_method m1 p1 item acc = some acc') :
    ∀ e ∈ acc', e ∈ acc ∨ e.method = m1 := by
  unfold add_endpoint_for_method at h
  cases hop : getOperation item m1 with
  | none =>
    simp only [hop] at h
    injection h with h2
    subst h2
    exact fun e he => Or.inl he
  | some op =>
    simp only [hop] at h
    cases hpp : parse_params op.parameters with
    | none => simp only [hpp] at h; cases h
    | some ps =>
      simp only [hpp] at h
      cases hrb : op.request_body with
      | none =>
        simp only [hrb] at h
        injection h with h2
        subst h2
        intro e he
        rcases List.mem_append.mp he with h0 | h0
        · exact Or.inl h0
        · rw [List.mem_singleton] at h0
          subst h0
          exact Or.inr rfl
      | some rb? =>
        cases rb? with
        | none => simp only [hrb] at h; cases h
        | some rb =>
          simp only [hrb] at h
          injection h with h2
          subst h2
          intro e he
          rcases List.mem_append.mp he with h0 | h0
          · exact Or.inl h0
          · rw [List.mem_singleton] at h0
            subst h0
            exact Or.inr rfl

/-- Every endpoint the catalog traversal produces is inherited from the
accumulator or carries one of the four supported method strings. -/
theorem extractGo_methods :
    ∀ (paths : OADocPaths) (acc es : List Endpoint),
      extractGo paths acc = some es →
      ∀ e ∈ es, e ∈ acc ∨
        e.method ∈ (["get", "post", "put", "delete"] : List String) := by
  intro paths
  induction paths with
  | nil =>
    intro acc es h e he
    injection h with h2
    subst h2
    exact Or.inl he
  | cons entry rest ih =>
    intro acc es h e he
    obtain ⟨p1, item?⟩ := entry
    cases item? with
    | none =>
      simp only [extractGo] at h
      exact ih _ _ h e he
    | some item =>
      simp only [extractGo] at h
      cases h1 : add_endpoint_for_method "get" p1 item acc with
      | none => simp only [h1] at h; exact Option.noConfusion h
      | some a1 =>
        simp only [h1] at h
        cases h2 : add_endpoint_for_method "post" p1 item a1 with
        | none => simp only [h2] at h; exact Option.noConfusion h
        | some a2 =>
          simp only [h2] at h
          cases h3 : add_endpoint_for_method "put" p1 item a2 with
          | none => simp only [h3] at h; exact Option.noConfusion h
          | some a3 =>
            simp only [h3] at h
            cases h4 : add_endpoint_for_method "delete" p1 item a3 with
            | none => simp only [h4] at h; exact Option.noConfusion h
            | some a4 =>
              simp only [h4] at h
              rcases ih _ _ h e he with h0 | h0
              · rcases add_endpoint_mem _ _ _ _ _ h4 e h0 with h5 | h5
                · rcases add_endpoint_mem _ _ _ _ _ h3 e h5 with h6 | h6
                  · rcases add_endpoint_mem _ _ _ _ _ h2 e h6 with h7 | h7
                    · rcases add_endpoint_mem _ _ _ _ _ h1 e h7 with h8 | h8
                      · exact Or.inl h8
                      · exact Or.inr (by simp [h8])
                    · exact Or.inr (by simp [h7])
                  · exact Or.inr (by simp [h6])
                · exact Or.inr (by simp [h5])
              · exact Or.inr h0

/-- Running the catalog traversal adds, for a supported method, exactly the
number of declaring document entries to each (path, method) count. -/
theorem extractGo_count (p m : String)
    (hm : m ∈ (["get", "post", "put", "delete"] : List String)) :
    ∀ (paths : OADocPaths) (acc es : List Endpoint),
      extractGo paths acc = some es →
      countPM es p m = countPM acc p m + declaredCount paths p m := by
  intro paths
  induction paths with
  | nil =>
    intro acc es h
    injection h with h2
    subst h2
    simp [declaredCount]
  | cons entry rest ih =>
    intro acc es h
    obtain ⟨p1, item?⟩ := entry
    cases item? with
    | none =>
      simp only [extractGo] at h
      rw [ih _ _ h]
      simp [declaredCount, List.countP_cons, hasHandler]
    | some item =>
      simp only [extractGo] at h
      cases h1 : add_endpoint_for_method "get" p1 item acc with
      | none => simp only [h1] at h; exact Option.noConfusion h
      | some a1 =>
        simp only [h1] at h
        cases h2 : add_endpoint_for_method "post" p1 item a1 with
        | none => simp only [h2] at h; exact Option.noConfusion h
        | some a2 =>
          simp only [h2] at h
          cases h3 : add_endpoint_for_method "put" p1 item a2 with
          | none => simp only [h3] at h; exact Option.noConfusion h
          | some a3 =>
            simp only [h3] at h
            cases h4 : add_endpoint_for_method "delete" p1 item a3 with
            | none => simp only [h4] at h; exact Option.noConfusion h
            | some a4 =>
              simp only [h4] at h
              rw [ih _ _ h, four_adds_count p1 p m item hm acc a1 a2 a3 a4 h1 h2 h3 h4]
              unfold declaredCount
              rw [List.countP_cons]
              by_cases hp : p1 = p
              · cases hh : hasHandler (some item) m <;> simp [hp, hh] <;> omega

              · simp [hp]

/-- A path key absent from the document contributes no declared
entries. -/
theorem declaredCount_zero (paths : OADocPaths) (p m : String)
    (h : p ∉ paths.map Prod.fst) : declaredCount paths p m = 0 := by
  unfold declaredCount
  rw [List.countP_eq_zero]
  intro entry hentry hcon
  rw [Bool.and_eq_true, decide_eq_true_eq] at hcon
  exact absurd (hcon.1 ▸ List.mem_map_of_mem Prod.fst hentry) h

/-- With distinct path keys, the declared count for a present entry's key
is one when it has the handler and zero otherwise. -/
theorem declaredCount_of_mem (paths : OADocPaths) (p m : String)
    (item : OAPathItem) (hnodup : (paths.map Prod.fst).Nodup)
    (hmem : (p, some item) ∈ paths) :
    declaredCount paths p m = if hasHandler (some item) m then 1 else 0 := by
  induction paths with
  | nil => cases hmem
  | cons entry rest ih =>
    rw [List.map_cons, List.nodup_cons] at hnodup
    obtain ⟨hn1, hn2⟩ := hnodup
    rcases List.mem_cons.mp hmem with he | he
    · have hz : declaredCount rest p m = 0 := by
        refine declaredCount_zero rest p m ?_
        rw [← he] at hn1
        exact hn1
      unfold declaredCount at hz ⊢
      rw [List.countP_cons, hz, ← he]
      simp
    · have hne : entry.1 ≠ p := by
        intro hcon
        have hpm : p ∈ rest.map Prod.fst := List.mem_map_of_mem Prod.fst he
        rw [hcon] at hn1
        exact hn1 hpm
      unfold declaredCount at ih ⊢
      rw [List.countP_cons]
      simp [hne]
      exact ih hn2 he

/-- C6: over a document whose extraction succeeds and whose path keys are
distinct, the catalog holds exactly one operation per declared
(path, method) pair with a handler among the four supported methods, none
for a supported method the path does not declare, and none at all for any
other method string. -/
theorem claim6_catalog_counts (paths : OADocPaths) (es : List Endpoint)
    (hnodup : (paths.map Prod.fst).Nodup)
    (hex : extract_endpoints paths = some es)
    (p : String) (item : OAPathItem) (hmem : (p, some item) ∈ paths) :
    (∀ m, m ∈ (["get", "post", "put", "delete"] : List String) →
       (getOperation item m).isSome → countPM es p m = 1) ∧
    (∀ m, m ∈ (["get", "post", "put", "delete"] : List String) →
       getOperation item m = none → countPM es p m = 0) ∧
    (∀ m, m ∉ (["get", "post", "put", "delete"] : List String) →
       countPM es p m = 0) := by
  unfold extract_endpoints at hex
  refine ⟨?_, ?_, ?_⟩
  · intro m hm hh
    rw [extractGo_count p m hm paths [] es hex,
      declaredCount_of_mem paths p m item hnodup hmem]
    simp [countPM, hasHandler, hh]
  · intro m hm hh
    rw [extractGo_count p m hm paths [] es hex,
      declaredCount_of_mem paths p m item hnodup hmem]
    simp [countPM, hasHandler, hh]
  · intro m hm
    rw [countPM, List.countP_eq_zero]
    intro e he hcon
    rw [decide_eq_true_eq] at hcon
    rcases extractGo_methods paths [] es hex e he with h0 | h0
    · exact absurd h0 (List.not_mem_nil e)
    · exact hm (hcon.2 ▸ h0)

/-- Witness for C6 on a one-path document declaring only a get handler. -/
theorem claim6_catalog_counts_witness :
    countPM [⟨"listItems", "get", "/items", []⟩] "/items" "get" = 1 ∧
    countPM [⟨"listItems", "get", "/items", []⟩] "/items" "post" = 0 ∧
    countPM [⟨"listItems", "get", "/items", []⟩] "/items" "patch" = 0 := by
  have h := claim6_catalog_counts
    [("/items", some ⟨some ⟨some "listItems", [], none⟩, none, none, none⟩)]
    [⟨"listItems", "get", "/items", []⟩]
    (by decide) (by rfl) "/items"
    ⟨some ⟨some "listItems", [], none⟩, none, none, none⟩ (by decide)
  exact ⟨h.1 "get" (by decide) (by rfl), h.2.1 "post" (by decide) rfl,
    h.2.2 "patch" (by decide)⟩

/-- Witness for C10: dropping the Path-location binding `id` leaves the
accumulated query pairs, headers and body unchanged. -/
theorem claim10_path_frame_witness :
    processParams
      [⟨"id", ParameterLocation.Path, true, "string"⟩,
       ⟨"q", ParameterLocation.Query, false, "string"⟩]
      (fun n => if n = "id" then some "42" else if n = "q" then some "x" else none)
      ⟨[], [], none⟩ =
    processParams
      [⟨"id", ParameterLocation.Path, true, "string"⟩,
       ⟨"q", ParameterLocation.Query, false, "string"⟩]
      (fun n => if n = "q" then some "x" else none)
      ⟨[], [], none⟩ :=
  claim10_path_frame _ _ _ ⟨[], [], none⟩ (by decide)

end OpenapiCli
